import Mathlib

set_option maxRecDepth 1000000

/-!
# Verification of `scripts/gen-third-party-notices.py`

A shallow embedding of the third-party-notices generator script.  The script
reads a `Package.resolved` JSON manifest, derives one display entry per
dependency pin, optionally appends a synthetic entry for a local `SwiftTerm`
checkout, deduplicates the entries by lowercased name (keeping the first
occurrence), sorts them case-insensitively, resolves license/notice files in
each entry's checkout directory, and either writes the rendered Markdown
document or aborts when some entry has no license file.

The embedding models:
* the filesystem as read-only oracles `isFile` / `isDir` / `readFile`
  (the script only probes and reads; the single write is represented by the
  `RunResult.wrote` constructor carrying the exact content);
* paths as lists of path components rooted at the abstract project root;
* the `git` subprocess as an oracle from (args, cwd) to success/failure;
* the manifest file's JSON content abstractly: either it fails to parse
  (`json.load` raises), or it parsed to an object whose `pins` key is
  present (a list of pin records) or absent;
* Python strings as Lean `String`s, with the handful of Python string
  operations the script uses (`strip`, `lower`, slicing, `or`-defaulting,
  `join`, `basename`, …) defined explicitly below on the character list.
-/

/-! ## Python string primitives -/

/-- Python `str.isspace` characters relevant to `str.strip()` (ASCII part). -/
def pyIsSpace (c : Char) : Bool :=
  c = ' ' || c = '\t' || c = '\n' || c = '\r' || c = '\x0b' || c = '\x0c'

/-- Strip leading whitespace, then trailing whitespace, from a character list. -/
def stripChars (l : List Char) : List Char :=
  (((l.dropWhile pyIsSpace).reverse.dropWhile pyIsSpace).reverse)

/-- Python `s.strip()`. -/
def pyStrip (s : String) : String := ⟨stripChars s.data⟩

/-- Python `s.lower()` (ASCII case folding, as used on package identities). -/
def pyLower (s : String) : String := ⟨s.data.map Char.toLower⟩

/-- Python `s[:n]`. -/
def pyTake (n : Nat) (s : String) : String := ⟨s.data.take n⟩

/-- Python `a or b` on strings: `b` when `a` is empty (falsy), else `a`. -/
def pyOr (a b : String) : String := if a = "" then b else a

/-- Python `sep.join(xs)`. -/
def joinSep (sep : String) : List String → String
  | [] => ""
  | [x] => x
  | x :: y :: xs => x ++ sep ++ joinSep sep (y :: xs)

/-- Python `s.rstrip("/")`. -/
def pyRstripSlashes (s : String) : String :=
  ⟨(s.data.reverse.dropWhile (fun c => c = '/')).reverse⟩

/-- Python `os.path.basename`: everything after the last `/`. -/
def pyBasename (s : String) : String :=
  ⟨(s.data.reverse.takeWhile (fun c => c ≠ '/')).reverse⟩

/-- Python `base[:-4] if base.endswith(".git") else base`. -/
def stripDotGit (s : String) : String :=
  if ".git".data.isSuffixOf s.data then ⟨s.data.take (s.data.length - 4)⟩ else s

/-- Python `s.startswith(p)` (used only to state properties). -/
def strStartsWith (s p : String) : Bool := p.data.isPrefixOf s.data

/-- Python `s.endswith(p)` (used only to state properties). -/
def strEndsWith (s p : String) : Bool := p.data.isSuffixOf s.data

/-- Lexicographic `≤` on character lists by code point: the comparison Python
uses for `str` (`a <= b`). -/
def lexLeB : List Char → List Char → Bool
  | [], _ => true
  | _ :: _, [] => false
  | a :: as, b :: bs => if a < b then true else if b < a then false else lexLeB as bs

/-- Python string `<=`. -/
def strLeB (a b : String) : Bool := lexLeB a.data b.data

/-! ## Data model of the script -/

/-- A path: components below the (abstract) project root directory. -/
abbrev FilePath' := List String

/-- Read-only view of the filesystem, as the script observes it. -/
structure FS where
  isFile : FilePath' → Bool
  isDir : FilePath' → Bool
  readFile : FilePath' → String

/-- Outcome of one `subprocess.run(["git", *args], cwd=..., check=True)`:
either captured stdout, or any raised exception (non-zero exit, missing
binary, …). -/
inductive GitResult where
  | ok (stdout : String)
  | fail
deriving DecidableEq

/-- The nested `state` object of a pin: the three optional fields the script
reads.  `pin.get("state", {})` with an absent or null state is modelled by
`none` at the `Pin` level. -/
structure PinState where
  version : Option String := none
  branch : Option String := none
  revision : Option String := none
deriving DecidableEq

/-- One record of the manifest's `pins` array.  `pin.get("identity", "")` and
`pin.get("location", "")` default absent keys to the empty string, so the
string fields model present-or-defaulted values directly. -/
structure Pin where
  identity : String := ""
  location : String := ""
  state : Option PinState := none
deriving DecidableEq

/-- Content of the manifest file, abstracted to what `load_pins` observes:
`malformed` when `json.load(f)` (or the subsequent `.get` on a non-object)
raises, otherwise the parsed object's optional `pins` array. -/
inductive ManifestData where
  | malformed
  | parsed (pins? : Option (List Pin))
deriving DecidableEq

/-- The whole external world of one run. -/
structure Config where
  fs : FS
  manifest : ManifestData
  git : List String → FilePath' → GitResult

/-- A derived display entry (the dict built per pin in `main`). -/
structure Entry where
  name : String
  repo : String
  version : String
  path : Option FilePath'
deriving DecidableEq

/-! ## Constants of the script -/

def RESOLVED_PATH : FilePath' := ["Package.resolved"]

def checkoutsRoot : FilePath' := [".build", "checkouts"]

def swiftTermPath : FilePath' := ["SwiftTerm"]

def LICENSE_FILES : List String :=
  ["LICENSE", "LICENSE.txt", "LICENSE.md", "COPYING", "COPYING.txt",
   "COPYING.md", "LICENCE", "LICENCE.txt", "LICENCE.md"]

def NOTICE_FILES : List String := ["NOTICE", "NOTICE.txt", "NOTICE.md"]

/-! ## The script's functions -/

/-- Model of `run_git`: runs git, returning `stdout.strip()`, with every failure
swallowed into the empty string. -/
def run_git (git : List String → FilePath' → GitResult)
    (args : List String) (cwd : FilePath') : String :=
  match git args cwd with
  | .ok out => pyStrip out
  | .fail => ""

/-- Model of `repo_url_for_path`. -/
def repo_url_for_path (git : List String → FilePath' → GitResult)
    (path : FilePath') : Option String :=
  let url := run_git git ["config", "--get", "remote.origin.url"] path
  if url ≠ "" then some url else none

/-- Model of `read_file`: the file's content, stripped. -/
def read_file (fs : FS) (path : FilePath') : String := pyStrip (fs.readFile path)

/-- Model of `pick_first_existing`. -/
def pick_first_existing (fs : FS) (base_dir : FilePath') : List String → Option FilePath'
  | [] => none
  | n :: rest =>
    if fs.isFile (base_dir ++ [n]) then some (base_dir ++ [n])
    else pick_first_existing fs base_dir rest

/-- Model of `checkout_dir_for_pin`: candidate directories, guarded by truthiness of
`identity` and `location`; first existing directory wins. -/
def checkout_dir_for_pin (fs : FS) (identity location : String) : Option FilePath' :=
  let c1 : List FilePath' :=
    if identity ≠ "" then [checkoutsRoot ++ [identity]] else []
  let c2 : List FilePath' :=
    if location ≠ "" then
      [checkoutsRoot ++ [stripDotGit (pyBasename (pyRstripSlashes location))]]
    else []
  (c1 ++ c2).find? fs.isDir

/-- Model of `version_label`: the `if not state` truthiness test is the all-fields-absent
test in this three-field model. -/
def version_label (state : Option PinState) : String :=
  match state with
  | none => "unknown"
  | some s =>
    if s.version.isNone && s.branch.isNone && s.revision.isNone then "unknown"
    else
      match s.version with
      | some v => v
      | none =>
        match s.branch, s.revision with
        | some b, some r => b ++ "@" ++ pyTake 7 r
        | _, _ =>
          match s.revision with
          | some r => pyTake 7 r
          | none => "unknown"

/-- How `load_pins` can abort. -/
inductive LoadError where
  | manifestMissing
  | jsonException
deriving DecidableEq

/-- Model of `load_pins`: missing file is the deliberate fatal `sys.exit(1)` (with a
message on stderr); a manifest that fails to parse makes `json.load` raise,
which nothing catches (`LoadError.jsonException`). -/
def load_pins (cfg : Config) : Except LoadError (List Pin) :=
  if cfg.fs.isFile RESOLVED_PATH = false then .error .manifestMissing
  else
    match cfg.manifest with
    | .malformed => .error .jsonException
    | .parsed pins? => .ok (pins?.getD [])

/-- The entry `main` builds for one manifest pin. -/
def entryOfPin (cfg : Config) (pin : Pin) : Entry :=
  { name := pin.identity
    repo := pin.location
    version := version_label pin.state
    path := checkout_dir_for_pin cfg.fs pin.identity pin.location }

/-- The synthetic local-dependency entry (appended only when the `SwiftTerm`
directory exists). -/
def swiftTermEntries (cfg : Config) : List Entry :=
  if cfg.fs.isDir swiftTermPath then
    [{ name := "SwiftTerm"
       repo := (repo_url_for_path cfg.git swiftTermPath).getD
         "https://github.com/migueldeicaza/SwiftTerm"
       version := pyOr (run_git cfg.git ["describe", "--tags", "--abbrev=0"] swiftTermPath)
         (pyOr (run_git cfg.git ["rev-parse", "--short", "HEAD"] swiftTermPath) "local")
       path := some swiftTermPath }]
  else []

/-- The dedup loop: `seen` is the set of lowercased names already kept. -/
def dedupEntries (seen : List String) : List Entry → List Entry
  | [] => []
  | e :: rest =>
    if pyLower e.name ∈ seen then dedupEntries seen rest
    else e :: dedupEntries (pyLower e.name :: seen) rest

/-- The sort key relation: `unique_entries.sort(key=lambda x: x["name"].lower())`. -/
def entryRel (a b : Entry) : Prop := strLeB (pyLower a.name) (pyLower b.name) = true

instance : DecidableRel entryRel := fun _ _ =>
  inferInstanceAs (Decidable (_ = true))

/-- Plain string order, for `sorted(missing)`. -/
def strRel (a b : String) : Prop := strLeB a b = true

instance : DecidableRel strRel := fun _ _ =>
  inferInstanceAs (Decidable (_ = true))

/-- Transitivity of the lexicographic comparison (a `def` of proof type so the
order instances below can live in the definitions part of the file). -/
def lexLeB_trans : ∀ a b c : List Char,
    lexLeB a b = true → lexLeB b c = true → lexLeB a c = true := by
  intro a
  induction a with
  | nil => intro b c _ _; rfl
  | cons x as ih =>
    intro b c hab hbc
    match b, c with
    | [], _ => simp [lexLeB] at hab
    | _ :: _, [] => simp [lexLeB] at hbc
    | y :: bs, z :: cs =>
      rcases lt_trichotomy x y with hxy | hxy | hxy
      · rcases lt_trichotomy y z with hyz | hyz | hyz
        · simp [lexLeB, lt_trans hxy hyz]
        · subst hyz; simp [lexLeB, hxy]
        · simp [lexLeB, asymm hyz, hyz] at hbc
      · subst hxy
        simp only [lexLeB, lt_irrefl, if_false] at hab
        rcases lt_trichotomy x z with hyz | hyz | hyz
        · simp [lexLeB, hyz]
        · subst hyz
          simp only [lexLeB, lt_irrefl, if_false] at hbc ⊢
          exact ih bs cs hab hbc
        · simp [lexLeB, asymm hyz, hyz] at hbc
      · simp [lexLeB, asymm hxy, hxy] at hab

/-- Totality of the lexicographic comparison. -/
def lexLeB_total : ∀ a b : List Char, lexLeB a b = true ∨ lexLeB b a = true := by
  intro a
  induction a with
  | nil => intro b; left; rfl
  | cons x as ih =>
    intro b
    match b with
    | [] => right; rfl
    | y :: bs =>
      rcases lt_trichotomy x y with hxy | hxy | hxy
      · left; simp [lexLeB, hxy]
      · subst hxy
        rcases ih bs with h | h
        · left; simpa [lexLeB, lt_irrefl] using h
        · right; simpa [lexLeB, lt_irrefl] using h
      · right; simp [lexLeB, hxy]

instance : IsTrans Entry entryRel := ⟨fun _ _ _ => lexLeB_trans _ _ _⟩

instance : IsTotal Entry entryRel := ⟨fun _ _ => lexLeB_total _ _⟩

instance : IsTrans String strRel := ⟨fun _ _ _ => lexLeB_trans _ _ _⟩

instance : IsTotal String strRel := ⟨fun _ _ => lexLeB_total _ _⟩

/-- The sort stage.  The keys are pairwise distinct after deduplication and
the order is total, so every sorting algorithm (in particular Python's stable
Timsort) produces this very list. -/
def sortEntries (l : List Entry) : List Entry := l.insertionSort entryRel

/-- Model of `sorted(missing)`: duplicates possible, but equal strings are identical
values, so again any correct sort produces this list. -/
def sortStrings (l : List String) : List String := l.insertionSort strRel

/-- License and notice lookups for one entry (`None` unless the path is a
directory). -/
def licenseNoticePaths (fs : FS) (e : Entry) : Option FilePath' × Option FilePath' :=
  match e.path with
  | some p =>
    if fs.isDir p then
      (pick_first_existing fs p LICENSE_FILES, pick_first_existing fs p NOTICE_FILES)
    else (none, none)
  | none => (none, none)

/-- Model of `os.path.basename` on a model path. -/
def pathBasename : FilePath' → String
  | [] => ""
  | [x] => x
  | _ :: x :: xs => pathBasename (x :: xs)

/-- First header line, `f"{name} ({version})"` after falsy-defaulting. -/
def headerLine (e : Entry) : String :=
  pyOr e.name "unknown" ++ " (" ++ pyOr e.version "unknown" ++ ")"

/-- The license line of the header. -/
def licenseLine (fs : FS) (e : Entry) : String :=
  match (licenseNoticePaths fs e).1 with
  | some p => "License file: " ++ pathBasename p
  | none => "License file: NOT FOUND"

/-- The `header` list built per entry. -/
def renderHeader (fs : FS) (e : Entry) : List String :=
  [headerLine e, "Repository: " ++ pyOr e.repo "unknown", licenseLine fs e]

/-- The `body` list built per entry. -/
def renderBody (fs : FS) (e : Entry) : List String :=
  (match (licenseNoticePaths fs e).1 with
   | some p => [read_file fs p]
   | none => []) ++
  (match (licenseNoticePaths fs e).2 with
   | some p => ["", "NOTICE (" ++ pathBasename p ++ ")", read_file fs p]
   | none => [])

/-- One rendered section: `"\n".join(header + [""] + body).strip()`. -/
def renderSection (fs : FS) (e : Entry) : String :=
  pyStrip (joinSep "\n" (renderHeader fs e ++ [""] ++ renderBody fs e))

/-- The fixed `out` preamble lines. -/
def docHeadLines : List String :=
  ["Third-Party Notices", "",
   "This document lists third-party components included in CodMate distributions, along with their licenses and attributions. The original license texts are reproduced or referenced below.",
   "",
   "If you distribute CodMate binaries, keep this file together with `LICENSE`.",
   "", "---", ""]

/-- The fixed horizontal-rule separator between sections. -/
def ruleSep : String := "\n\n---\n\n"

/-- Model of `content = "\n".join(out).strip() + "\n"`. -/
def renderDoc (sections : List String) : String :=
  pyStrip (joinSep "\n" (docHeadLines ++ [joinSep ruleSep sections])) ++ "\n"

/-- Observable outcome of one run.  `wrote c` is the only constructor that
writes (or overwrites) the output file, with exit status 0;
`missingLicenses names` is `sys.exit(1)` after printing `names` (already
sorted) and a hint to stderr, without writing; `manifestMissing` is the
early `sys.exit(1)` of `load_pins`; `uncaught` is termination by a
propagating exception (no output file written). -/
inductive RunResult where
  | wrote (content : String)
  | missingLicenses (sortedNames : List String)
  | manifestMissing
  | uncaught
deriving DecidableEq

/-- The pins `main` works with (empty until `load_pins` succeeded). -/
def loadedPins (cfg : Config) : List Pin := ((load_pins cfg).toOption).getD []

/-- All entries before deduplication: manifest entries in manifest order,
then the optional synthetic entry. -/
def allEntries (cfg : Config) : List Entry :=
  (loadedPins cfg).map (entryOfPin cfg) ++ swiftTermEntries cfg

/-- The deduplicated, sorted entry list. -/
def uniqueSorted (cfg : Config) : List Entry :=
  sortEntries (dedupEntries [] (allEntries cfg))

/-- The `missing` list, in entry order: display names of entries with no
license file. -/
def missingNames (cfg : Config) : List String :=
  ((uniqueSorted cfg).filter
    (fun e => ((licenseNoticePaths cfg.fs e).1).isNone)).map
    (fun e => pyOr e.name "unknown")

/-- The rendered document of this run. -/
def renderedContent (cfg : Config) : String :=
  renderDoc ((uniqueSorted cfg).map (renderSection cfg.fs))

/-- Model of `main`: the whole pipeline. -/
def main_run (cfg : Config) : RunResult :=
  match load_pins cfg with
  | .error .manifestMissing => .manifestMissing
  | .error .jsonException => .uncaught
  | .ok _ =>
    if missingNames cfg = [] then .wrote (renderedContent cfg)
    else .missingLicenses (sortStrings (missingNames cfg))

/-! ## Spec-side definitions (for refinement comparisons) -/

/-- Modelled from the claim's words (C2): the four-tier priority of the
version label resolver, stated directly. -/
def version_label_spec (state : Option PinState) : String :=
  match state with
  | none => "unknown"
  | some s =>
    match s.version with
    | some v => v
    | none =>
      match s.branch, s.revision with
      | some b, some r => b ++ "@" ++ pyTake 7 r
      | none, some r => pyTake 7 r
      | _, _ => "unknown"

/-- The location-derived checkout candidate (shared by code and claim). -/
def locCandidate (location : String) : FilePath' :=
  checkoutsRoot ++ [stripDotGit (pyBasename (pyRstripSlashes location))]

/-- Modelled from the claim's words (C8): tries the identity-named directory
unconditionally, then (if a location is given) the location-derived one. -/
def checkout_dir_claim (fs : FS) (identity location : String) : Option FilePath' :=
  let c2 : List FilePath' :=
    if location ≠ "" then
      [checkoutsRoot ++ [stripDotGit (pyBasename (pyRstripSlashes location))]]
    else []
  ((checkoutsRoot ++ [identity]) :: c2).find? fs.isDir

/-! ## Auxiliary predicates for the document-structure claim -/

/-- The first character exists and is not Python whitespace. -/
def headOk (l : List Char) : Bool :=
  match l with
  | [] => false
  | c :: _ => !(pyIsSpace c)

/-- String begins with a non-whitespace character. -/
def headOkS (s : String) : Bool := headOk s.data

/-- String ends with a non-whitespace character. -/
def endOkS (s : String) : Bool := headOk s.data.reverse

/-- Drop trailing whitespace. -/
def trailStrip (l : List Char) : List Char := (l.reverse.dropWhile pyIsSpace).reverse

/-- The fixed document prefix: `"\n".join(out)` restricted to the preamble
lines, followed by the newline that separates it from the joined sections. -/
def docHeadStr : String :=
  "Third-Party Notices\n\nThis document lists third-party components included in CodMate distributions, along with their licenses and attributions. The original license texts are reproduced or referenced below.\n\nIf you distribute CodMate binaries, keep this file together with `LICENSE`.\n\n---\n\n"

/-- The document written for an empty entry list: the fixed title, preamble,
distribution reminder and rule, with the final `strip()` removing the blank
tail, plus the single trailing newline. -/
def zeroEntryDoc : String :=
  "Third-Party Notices\n\nThis document lists third-party components included in CodMate distributions, along with their licenses and attributions. The original license texts are reproduced or referenced below.\n\nIf you distribute CodMate binaries, keep this file together with `LICENSE`.\n\n---\n"

/-! ## Concrete configurations for witnesses and counterexamples -/

/-- A git oracle whose every invocation fails. -/
def gitFail : List String → FilePath' → GitResult := fun _ _ => .fail

def fsC1 : FS :=
  { isFile := fun p => decide (p = RESOLVED_PATH)
    isDir := fun _ => false
    readFile := fun _ => "" }

def pinC1 : Pin := { identity := "B", state := some { version := some "2.0" } }

def cfgC1 : Config := { fs := fsC1, manifest := .parsed (some [pinC1]), git := gitFail }

def entryDup1 : Entry := { name := "Dup", repo := "r1", version := "1", path := none }

def entryDup2 : Entry := { name := "dup", repo := "r2", version := "2", path := none }

def cfgC4 : Config := { fs := fsC1, manifest := .malformed, git := gitFail }

def fsC5 : FS :=
  { isFile := fun p => decide (p = RESOLVED_PATH ∨ p = swiftTermPath ++ ["LICENSE"])
    isDir := fun p => decide (p = swiftTermPath)
    readFile := fun _ => "MIT" }

def pinC5 : Pin :=
  { identity := "swiftterm"
    location := "https://example.com/fork/swiftterm.git"
    state := some { version := some "9.9.9" } }

def cfgC5 : Config := { fs := fsC5, manifest := .parsed (some [pinC5]), git := gitFail }

def fsC6 : FS := { isFile := fun _ => false, isDir := fun _ => false, readFile := fun _ => "" }

def cfgC6 : Config := { fs := fsC6, manifest := .parsed none, git := gitFail }

def fsC7x : FS :=
  { isFile := fun p => decide (p = RESOLVED_PATH ∨ p = checkoutsRoot ++ [" A", "LICENSE"])
    isDir := fun p => decide (p = checkoutsRoot ++ [" A"])
    readFile := fun p => if p = checkoutsRoot ++ [" A", "LICENSE"] then "MIT License" else "" }

def pinC7x : Pin := { identity := " A", state := some { version := some "1.0" } }

def cfgC7x : Config := { fs := fsC7x, manifest := .parsed (some [pinC7x]), git := gitFail }

def entryC7x : Entry :=
  { name := " A", repo := "", version := "1.0", path := some (checkoutsRoot ++ [" A"]) }

def fsC7w : FS :=
  { isFile := fun p => decide (p = RESOLVED_PATH ∨ p = checkoutsRoot ++ ["Alpha", "LICENSE"])
    isDir := fun p => decide (p = checkoutsRoot ++ ["Alpha"])
    readFile := fun p => if p = checkoutsRoot ++ ["Alpha", "LICENSE"] then "MIT License" else "" }

def pinC7w : Pin := { identity := "Alpha", state := some { version := some "1.0" } }

def cfgC7w : Config := { fs := fsC7w, manifest := .parsed (some [pinC7w]), git := gitFail }

def entryC7w : Entry :=
  { name := "Alpha", repo := "", version := "1.0", path := some (checkoutsRoot ++ ["Alpha"]) }

def fsC8 : FS :=
  { isFile := fun _ => false
    isDir := fun p => decide (p = checkoutsRoot ++ [""])
    readFile := fun _ => "" }

def fsC8w : FS :=
  { isFile := fun _ => false
    isDir := fun p => decide (p = checkoutsRoot ++ ["dep"])
    readFile := fun _ => "" }

def cfgC9a : Config := { fs := fsC6, manifest := .parsed (some [pinC1]), git := gitFail }

def cfgC9b : Config := { fs := fsC6, manifest := .parsed (some [pinC1]), git := gitFail }

def entryE10 : Entry := { name := "", repo := "", version := "1.0", path := none }

def entryZ10 : Entry := { name := "Z", repo := "rz", version := "2", path := none }

/-! ## Helper lemmas -/

/-- Claim C2. The version label resolver is the pure total function described by
the spec's four-tier priority; in particular the spec's worked examples hold. -/
theorem C2_version_label (s : Option PinState) :
    version_label s = version_label_spec s := by
  match s with
  | none => rfl
  | some st =>
    obtain ⟨v, b, r⟩ := st
    cases v <;> cases b <;> cases r <;> rfl

/-- Characterization of the dedup loop: an entry survives with accumulator
`seen` iff it occurs at a position whose key is fresh (not in `seen`, and not
the key of any earlier element). -/
theorem mem_dedupEntries : ∀ (es : List Entry) (seen : List String) (e : Entry),
    e ∈ dedupEntries seen es ↔
      ∃ pre post, es = pre ++ e :: post ∧ pyLower e.name ∉ seen ∧
        ∀ x ∈ pre, pyLower x.name ≠ pyLower e.name := by
  intro es
  induction es with
  | nil =>
    intro seen e
    simp only [dedupEntries, List.not_mem_nil, false_iff]
    rintro ⟨pre, post, hsplit, -, -⟩
    exact List.cons_ne_nil e post (List.append_eq_nil.mp hsplit.symm).2
  | cons a rest ih =>
    intro seen e
    by_cases hs : pyLower a.name ∈ seen
    · rw [show dedupEntries seen (a :: rest) = dedupEntries seen rest from by
        simp [dedupEntries, hs]]
      rw [ih seen e]
      constructor
      · rintro ⟨pre, post, hsplit, hseen, hpre⟩
        refine ⟨a :: pre, post, by simp [hsplit], hseen, ?_⟩
        intro x hx
        rcases List.mem_cons.mp hx with rfl | hx'
        · exact fun hEq => hseen (hEq ▸ hs)
        · exact hpre x hx'
      · rintro ⟨pre, post, hsplit, hseen, hpre⟩
        rcases pre with _ | ⟨a', pre'⟩
        · rw [List.nil_append] at hsplit
          obtain ⟨rfl, rfl⟩ := List.cons_eq_cons.mp hsplit
          exact absurd hs hseen
        · rw [List.cons_append] at hsplit
          obtain ⟨rfl, hrest⟩ := List.cons_eq_cons.mp hsplit
          exact ⟨pre', post, hrest, hseen, fun x hx => hpre x (List.mem_cons_of_mem _ hx)⟩
    · rw [show dedupEntries seen (a :: rest)
          = a :: dedupEntries (pyLower a.name :: seen) rest from by simp [dedupEntries, hs]]
      rw [List.mem_cons, ih (pyLower a.name :: seen) e]
      constructor
      · rintro (rfl | ⟨pre, post, hsplit, hseen, hpre⟩)
        · exact ⟨[], rest, rfl, hs, by simp⟩
        · have hkey : pyLower e.name ≠ pyLower a.name := by
            intro h
            exact hseen (h ▸ List.mem_cons_self _ _)
          refine ⟨a :: pre, post, by simp [hsplit], ?_, ?_⟩
          · exact fun h => hseen (List.mem_cons_of_mem _ h)
          · intro x hx
            rcases List.mem_cons.mp hx with rfl | hx'
            · exact fun h => hkey h.symm
            · exact hpre x hx'
      · rintro ⟨pre, post, hsplit, hseen, hpre⟩
        rcases pre with _ | ⟨a', pre'⟩
        · rw [List.nil_append] at hsplit
          obtain ⟨rfl, rfl⟩ := List.cons_eq_cons.mp hsplit
          exact Or.inl rfl
        · rw [List.cons_append] at hsplit
          obtain ⟨rfl, hrest⟩ := List.cons_eq_cons.mp hsplit
          refine Or.inr ⟨pre', post, hrest, ?_,
            fun x hx => hpre x (List.mem_cons_of_mem _ hx)⟩
          intro h
          rcases List.mem_cons.mp h with h' | h'
          · exact hpre a (List.mem_cons_self _ _) h'.symm
          · exact hseen h'

/-- The keys of the dedup output are pairwise distinct and disjoint from the
accumulator. -/
theorem dedupEntries_keys_nodup : ∀ (es : List Entry) (seen : List String),
    ((dedupEntries seen es).map (fun e => pyLower e.name)).Nodup ∧
      ∀ k ∈ (dedupEntries seen es).map (fun e => pyLower e.name), k ∉ seen := by
  intro es
  induction es with
  | nil => intro seen; simp [dedupEntries]
  | cons a rest ih =>
    intro seen
    by_cases hs : pyLower a.name ∈ seen
    · simpa [dedupEntries, hs] using ih seen
    · have h2 := ih (pyLower a.name :: seen)
      rw [show dedupEntries seen (a :: rest)
          = a :: dedupEntries (pyLower a.name :: seen) rest from by simp [dedupEntries, hs]]
      simp only [List.map_cons, List.nodup_cons, List.mem_cons]
      refine ⟨⟨?_, h2.1⟩, ?_⟩
      · intro hmem
        exact h2.2 _ hmem (List.mem_cons_self _ _)
      · rintro k (rfl | hk)
        · exact hs
        · intro hkseen
          exact h2.2 k hk (List.mem_cons_of_mem _ hkseen)

/-! ## Claims -/

/-- Claim C3. After the deduplicate-and-sort stage, the collection is sorted by
lowercased name in non-decreasing order, contains at most one entry per
lowercased name, and an entry is in the collection iff it occurs in the input
at a position where no earlier entry shares its lowercased name (so exactly
the first-encountered entry per case-insensitive name survives). -/
theorem C3_dedup_sort (es : List Entry) :
    List.Sorted entryRel (sortEntries (dedupEntries [] es))
    ∧ ((sortEntries (dedupEntries [] es)).map (fun e => pyLower e.name)).Nodup
    ∧ ∀ e : Entry, (e ∈ sortEntries (dedupEntries [] es) ↔
        ∃ pre post, es = pre ++ e :: post ∧
          ∀ x ∈ pre, pyLower x.name ≠ pyLower e.name) := by
  refine ⟨List.sorted_insertionSort entryRel _, ?_, ?_⟩
  · have hperm : List.Perm (sortEntries (dedupEntries [] es)) (dedupEntries [] es) :=
      List.perm_insertionSort entryRel _
    exact ((hperm.map _).nodup_iff).mpr (dedupEntries_keys_nodup es []).1
  · intro e
    have h1 : e ∈ sortEntries (dedupEntries [] es) ↔ e ∈ dedupEntries [] es :=
      List.mem_insertionSort entryRel
    rw [h1, mem_dedupEntries]
    constructor
    · rintro ⟨pre, post, h1, -, h3⟩
      exact ⟨pre, post, h1, h3⟩
    · rintro ⟨pre, post, h1, h3⟩
      exact ⟨pre, post, h1, List.not_mem_nil _, h3⟩

/-- Witness for C3 at a concrete two-entry input sharing a case-insensitive
name: the first-encountered entry is in the result. -/
theorem C3_witness : entryDup1 ∈ sortEntries (dedupEntries [] [entryDup1, entryDup2]) :=
  ((C3_dedup_sort [entryDup1, entryDup2]).2.2 entryDup1).mpr
    ⟨[], [entryDup2], rfl, by simp⟩

/-- Claim C5. The synthetic `SwiftTerm` entry is appended after all
manifest-derived entries, so whenever some manifest pin's identity equals
`"SwiftTerm"` case-insensitively, the entry for that name in the deduplicated
output is a manifest-derived entry. -/
theorem C5_synthetic_loses (cfg : Config)
    (hpin : ∃ p ∈ loadedPins cfg, pyLower p.identity = pyLower "SwiftTerm") :
    ∀ e ∈ uniqueSorted cfg, pyLower e.name = pyLower "SwiftTerm" →
      e ∈ (loadedPins cfg).map (entryOfPin cfg) := by
  obtain ⟨p, hpMem, hpKey⟩ := hpin
  intro e hMem hKey
  have hMem' : e ∈ dedupEntries [] (allEntries cfg) :=
    (List.mem_insertionSort entryRel).mp hMem
  obtain ⟨pre, post, hsplit, -, hpre⟩ := (mem_dedupEntries _ [] e).mp hMem'
  have hA : entryOfPin cfg p ∈ (loadedPins cfg).map (entryOfPin cfg) :=
    List.mem_map_of_mem _ hpMem
  have hAKey : pyLower (entryOfPin cfg p).name = pyLower e.name := by
    rw [show (entryOfPin cfg p).name = p.identity from rfl, hpKey, hKey]
  rcases List.append_eq_append_iff.mp hsplit.symm with ⟨a', hA1, hA2⟩ | ⟨c', hC1, hC2⟩
  · -- manifest part = pre ++ a'; e :: post = a' ++ synthetic part
    rcases a' with _ | ⟨y, ys⟩
    · -- pre is the whole manifest part: the pin's entry is in pre, same key
      rw [List.append_nil] at hA1
      exact absurd hAKey (hpre _ (hA1 ▸ hA))
    · rw [List.cons_append] at hA2
      obtain ⟨rfl, -⟩ := List.cons_eq_cons.mp hA2
      rw [hA1]
      exact List.mem_append_right _ (List.mem_cons_self _ _)
  · -- pre contains the whole manifest part: the pin's entry is in pre, same key
    exact absurd hAKey (hpre _ (hC1 ▸ List.mem_append_left c' hA))

/-- Witness for C5: in `cfgC5` the manifest pin `swiftterm` collides with the
synthetic entry (the `SwiftTerm` directory exists), and the surviving entry is
the manifest-derived one. -/
theorem C5_witness :
    entryOfPin cfgC5 pinC5 ∈ (loadedPins cfgC5).map (entryOfPin cfgC5) :=
  C5_synthetic_loses cfgC5 ⟨pinC5, by decide, by decide⟩
    (entryOfPin cfgC5 pinC5) (by decide) (by decide)

/-- After a successful load, `main` is exactly the missing-gate plus writer. -/
theorem main_run_ok (cfg : Config) (pins : List Pin)
    (h : load_pins cfg = Except.ok pins) :
    main_run cfg = if missingNames cfg = [] then RunResult.wrote (renderedContent cfg)
      else RunResult.missingLicenses (sortStrings (missingNames cfg)) := by
  unfold main_run
  rw [h]

/-- Claim C1. If some deduplicated entry has no resolvable license file, the run
exits non-zero reporting the sorted offending names to stderr and does not
write the output; the output is written exactly when the missing list is
empty (all given that the manifest loaded). -/
theorem C1_missing_gate (cfg : Config) (hok : ∃ pins, load_pins cfg = Except.ok pins) :
    ((∃ e ∈ uniqueSorted cfg, (licenseNoticePaths cfg.fs e).1 = none) →
        missingNames cfg ≠ [] ∧
        main_run cfg = RunResult.missingLicenses (sortStrings (missingNames cfg)))
    ∧ (∀ c : String, main_run cfg = RunResult.wrote c ↔
        (missingNames cfg = [] ∧ c = renderedContent cfg))
    ∧ List.Sorted strRel (sortStrings (missingNames cfg))
    ∧ List.Perm (sortStrings (missingNames cfg)) (missingNames cfg)
    ∧ (missingNames cfg = [] ↔
        ∀ e ∈ uniqueSorted cfg, (licenseNoticePaths cfg.fs e).1 ≠ none) := by
  obtain ⟨pins, hld⟩ := hok
  have hmr := main_run_ok cfg pins hld
  have hmem : ∀ e ∈ uniqueSorted cfg, (licenseNoticePaths cfg.fs e).1 = none →
      missingNames cfg ≠ [] := by
    intro e heMem heNone h0
    have h1 : e ∈ (uniqueSorted cfg).filter
        (fun e => ((licenseNoticePaths cfg.fs e).1).isNone) :=
      List.mem_filter.mpr ⟨heMem, by simp [heNone]⟩
    have h2 : pyOr e.name "unknown" ∈ missingNames cfg := List.mem_map_of_mem _ h1
    rw [h0] at h2
    exact List.not_mem_nil _ h2
  refine ⟨?_, ?_, List.sorted_insertionSort strRel _, List.perm_insertionSort strRel _, ?_⟩
  · rintro ⟨e, heMem, heNone⟩
    have hne := hmem e heMem heNone
    exact ⟨hne, by rw [hmr, if_neg hne]⟩
  · intro c
    constructor
    · intro hw
      rw [hmr] at hw
      by_cases hm : missingNames cfg = []
      · rw [if_pos hm] at hw
        injection hw with h
        exact ⟨hm, h.symm⟩
      · rw [if_neg hm] at hw
        exact absurd hw (by simp)
    · rintro ⟨hm, rfl⟩
      rw [hmr, if_pos hm]
  · constructor
    · intro h0 e heMem heNone
      exact hmem e heMem heNone h0
    · intro hAll
      have hfil : (uniqueSorted cfg).filter
          (fun e => ((licenseNoticePaths cfg.fs e).1).isNone) = [] := by
        rw [List.filter_eq_nil_iff]
        intro e he
        simp only [Option.isNone_iff_eq_none]
        simpa using hAll e he
      simp [missingNames, hfil]

/-- Witness for C1: in `cfgC1` the sole entry has no checkout directory, so
the run aborts with the sorted missing list and writes nothing. -/
theorem C1_witness :
    missingNames cfgC1 ≠ [] ∧
    main_run cfgC1 = RunResult.missingLicenses (sortStrings (missingNames cfgC1)) :=
  (C1_missing_gate cfgC1 ⟨[pinC1], rfl⟩).1
    ⟨entryOfPin cfgC1 pinC1, by decide, by decide⟩

/-- Counterexample to claim C4. A present but malformed manifest makes `json.load`
raise with nothing catching it: the run terminates by an uncaught exception,
not by either deliberate fatal exit, contradicting the claim that every
external call is defensively wrapped. -/
theorem C4_counterexample : main_run cfgC4 = RunResult.uncaught := rfl

/-- Amended claim C4. Subprocess invocations are defensively wrapped (any
failure yields the empty-string default), and the program completes or exits
via the two deliberate fatal exits on every input **except** that JSON
parsing of a present manifest is not wrapped: exactly the runs whose manifest
file exists but fails to parse terminate via an uncaught exception. -/
theorem C4_amended (cfg : Config) :
    (main_run cfg = RunResult.uncaught ↔
      (cfg.fs.isFile RESOLVED_PATH = true ∧ cfg.manifest = ManifestData.malformed))
    ∧ (∀ args cwd, cfg.git args cwd = GitResult.fail → run_git cfg.git args cwd = "") := by
  constructor
  · constructor
    · intro h
      by_cases hf : cfg.fs.isFile RESOLVED_PATH = true
      · cases hmf : cfg.manifest with
        | malformed => exact ⟨hf, rfl⟩
        | parsed pins? =>
          have hld : load_pins cfg = Except.ok (pins?.getD []) := by
            simp [load_pins, hf, hmf]
          rw [main_run_ok cfg _ hld] at h
          by_cases hm2 : missingNames cfg = [] <;> simp [hm2] at h
      · have hf' : cfg.fs.isFile RESOLVED_PATH = false := by
          simpa using hf
        have hld : load_pins cfg = Except.error LoadError.manifestMissing := by
          simp [load_pins, hf']
        unfold main_run at h
        rw [hld] at h
        exact absurd h (by simp)
    · rintro ⟨hf, hm⟩
      have hld : load_pins cfg = Except.error LoadError.jsonException := by
        simp [load_pins, hf, hm]
      unfold main_run
      rw [hld]
  · intro args cwd h
    simp [run_git, h]

/-- Witness for the amended C4: a failing git call yields the safe default. -/
theorem C4_witness :
    run_git cfgC4.git ["rev-parse", "--short", "HEAD"] swiftTermPath = "" :=
  (C4_amended cfgC4).2 ["rev-parse", "--short", "HEAD"] swiftTermPath rfl

/-- Claim C6. `load_pins` exits fatally (non-zero, message on stderr) exactly
when the manifest file is absent; when present and parsed it returns the
`pins` array, or `[]` when that key is absent. -/
theorem C6_load_pins (cfg : Config) :
    (cfg.fs.isFile RESOLVED_PATH = false →
        load_pins cfg = Except.error LoadError.manifestMissing ∧
        main_run cfg = RunResult.manifestMissing)
    ∧ (∀ pins : List Pin, cfg.fs.isFile RESOLVED_PATH = true →
        cfg.manifest = ManifestData.parsed (some pins) →
        load_pins cfg = Except.ok pins)
    ∧ (cfg.fs.isFile RESOLVED_PATH = true → cfg.manifest = ManifestData.parsed none →
        load_pins cfg = Except.ok []) := by
  refine ⟨?_, ?_, ?_⟩
  · intro h
    have h1 : load_pins cfg = Except.error LoadError.manifestMissing := by
      simp [load_pins, h]
    refine ⟨h1, ?_⟩
    unfold main_run
    rw [h1]
  · intro pins h1 h2
    simp [load_pins, h1, h2]
  · intro h1 h2
    simp [load_pins, h1, h2]

/-- Witness for C6 at a filesystem without the manifest. -/
theorem C6_witness :
    load_pins cfgC6 = Except.error LoadError.manifestMissing ∧
    main_run cfgC6 = RunResult.manifestMissing :=
  (C6_load_pins cfgC6).1 rfl

/-- Claim C9. The pipeline is a pure function of the filesystem state, the
manifest contents and the git-call outcomes: two runs over identical worlds
produce identical results and byte-identical rendered documents. -/
theorem C9_deterministic (c1 c2 : Config) (hfs : c1.fs = c2.fs)
    (hm : c1.manifest = c2.manifest) (hg : c1.git = c2.git) :
    main_run c1 = main_run c2 ∧ renderedContent c1 = renderedContent c2 := by
  obtain ⟨fs1, m1, g1⟩ := c1
  obtain ⟨fs2, m2, g2⟩ := c2
  cases hfs
  cases hm
  cases hg
  exact ⟨rfl, rfl⟩

/-- Witness for C9 at two identically-defined configurations. -/
theorem C9_witness :
    main_run cfgC9a = main_run cfgC9b ∧ renderedContent cfgC9a = renderedContent cfgC9b :=
  C9_deterministic cfgC9a cfgC9b rfl rfl rfl

/-- Counterexample to claim C8. With an empty identity the code skips the identity
candidate (`if identity:`), but the claim's resolver tries it first: on a
filesystem where `.build/checkouts/` itself answers the directory probe for
the empty-named candidate, the two disagree. -/
theorem C8_counterexample :
    checkout_dir_for_pin fsC8 "" "x.git" = none ∧
    checkout_dir_claim fsC8 "" "x.git" = some (checkoutsRoot ++ [""]) := by
  exact ⟨rfl, rfl⟩

/-- Amended claim C8. The resolver tries, in order, (if the identity is
non-empty) the identity-named directory under the fixed checkouts root, then
(if a location is given) the location-derived one, returning the first that
exists as a directory, and absent when no candidate does. -/
theorem C8_amended (fs : FS) (identity location : String) :
    (identity ≠ "" → fs.isDir (checkoutsRoot ++ [identity]) = true →
      checkout_dir_for_pin fs identity location = some (checkoutsRoot ++ [identity]))
    ∧ ((identity = "" ∨ fs.isDir (checkoutsRoot ++ [identity]) = false) →
        location ≠ "" →
        checkout_dir_for_pin fs identity location =
          (if fs.isDir (locCandidate location) = true then some (locCandidate location)
           else none))
    ∧ ((identity = "" ∨ fs.isDir (checkoutsRoot ++ [identity]) = false) →
        location = "" → checkout_dir_for_pin fs identity location = none) := by
  refine ⟨?_, ?_, ?_⟩
  · intro hid hdir
    simp [checkout_dir_for_pin, hid, hdir]
  · rintro (rfl | hdir) hloc
    · cases hd : fs.isDir (checkoutsRoot ++ [stripDotGit (pyBasename (pyRstripSlashes location))]) with
      | false => simp [checkout_dir_for_pin, hloc, locCandidate, hd]
      | true => simp [checkout_dir_for_pin, hloc, locCandidate, hd]
    · rcases eq_or_ne identity "" with rfl | hid
      · cases hd : fs.isDir (checkoutsRoot ++ [stripDotGit (pyBasename (pyRstripSlashes location))]) with
        | false => simp [checkout_dir_for_pin, hloc, locCandidate, hd]
        | true => simp [checkout_dir_for_pin, hloc, locCandidate, hd]
      · cases hd : fs.isDir (checkoutsRoot ++ [stripDotGit (pyBasename (pyRstripSlashes location))]) with
        | false => simp [checkout_dir_for_pin, hid, hloc, hdir, locCandidate, hd]
        | true => simp [checkout_dir_for_pin, hid, hloc, hdir, locCandidate, hd]
  · rintro (rfl | hdir) rfl
    · simp [checkout_dir_for_pin]
    · rcases eq_or_ne identity "" with rfl | hid
      · simp [checkout_dir_for_pin]
      · simp [checkout_dir_for_pin, hid, hdir]

/-- Witness for the amended C8: an existing identity-named directory wins. -/
theorem C8_witness : checkout_dir_for_pin fsC8w "dep" "" = some (checkoutsRoot ++ ["dep"]) :=
  (C8_amended fsC8w "dep" "").1 (by decide) (by decide)

/-- Claim C10. At render time each falsy (empty-string) field is displayed as
`unknown`: the header line, repository line and version display fall back,
while `version_label` returns an explicit empty `version` verbatim, and the
deduplication and sorting stages keep using the original (possibly empty)
name as key. -/
theorem C10_falsy_render (fs : FS) (e b : Entry) :
    (e.name = "" → (renderHeader fs e).head? =
      some ("unknown (" ++ pyOr e.version "unknown" ++ ")"))
    ∧ (e.repo = "" → (renderHeader fs e)[1]? = some "Repository: unknown")
    ∧ (e.version = "" → (renderHeader fs e).head? =
      some (pyOr e.name "unknown" ++ " (unknown)"))
    ∧ version_label (some { version := some "", branch := none, revision := none }) = ""
    ∧ (e.name = "" → b.name = "" → dedupEntries [] [e, b] = [e])
    ∧ (e.name = "" → b.name ≠ "" → sortEntries [b, e] = [e, b]) := by
  have hhead : (renderHeader fs e).head? = some (headerLine e) := rfl
  have hsecond : (renderHeader fs e)[1]? = some ("Repository: " ++ pyOr e.repo "unknown") := rfl
  have hlow : pyLower "" = "" := rfl
  refine ⟨?_, ?_, ?_, rfl, ?_, ?_⟩
  · intro h
    rw [hhead, headerLine, h]
    rw [show pyOr "" "unknown" = "unknown" from rfl]
    rw [show ("unknown" : String) ++ " (" = "unknown (" from rfl]
  · intro h
    rw [hsecond, h]
    rw [show pyOr "" "unknown" = "unknown" from rfl]
    rw [show ("Repository: " : String) ++ "unknown" = "Repository: unknown" from rfl]
  · intro h
    rw [hhead, headerLine, h]
    rw [show pyOr "" "unknown" = "unknown" from rfl]
    rw [String.append_assoc, String.append_assoc]
    rw [show (" (" : String) ++ ("unknown" ++ ")") = " (unknown)" from rfl]
  · intro h1 h2
    simp [dedupEntries, h1, h2, hlow]
  · intro h1 h2
    have hbd : (pyLower b.name).data ≠ [] := by
      intro hd
      apply h2
      apply String.ext
      have hd' : b.name.data.map Char.toLower = [] := hd
      exact List.map_eq_nil_iff.mp hd'
    have hstep : strLeB (pyLower b.name) (pyLower e.name) = false := by
      rw [h1, hlow]
      cases hd : (pyLower b.name).data with
      | nil => exact absurd hd hbd
      | cons c cs => simp [strLeB, hd, lexLeB, show ("" : String).data = [] from rfl]
    have hrel : ¬ entryRel b e := by
      rw [entryRel, hstep]
      simp
    simp [sortEntries, List.insertionSort, List.orderedInsert, hrel]

/-- Witness for C10: the empty-named entry renders `unknown` and still sorts
by its original empty name (before the non-empty name `Z`). -/
theorem C10_witness :
    (renderHeader fsC6 entryE10).head? =
      some ("unknown (" ++ pyOr entryE10.version "unknown" ++ ")")
    ∧ sortEntries [entryZ10, entryE10] = [entryE10, entryZ10] :=
  ⟨(C10_falsy_render fsC6 entryE10 entryZ10).1 rfl,
   (C10_falsy_render fsC6 entryE10 entryZ10).2.2.2.2.2 rfl (by decide)⟩

/-! ## String-structure helper lemmas for the document claim -/

/-- A list is a `isPrefixOf`-prefix of itself followed by anything. -/
theorem isPrefixOf_append_self : ∀ (p t : List Char), p.isPrefixOf (p ++ t) = true := by
  intro p t
  induction p with
  | nil => simp
  | cons c cs ih => simp [List.isPrefixOf_cons₂, ih]

/-- The head of a non-empty `dropWhile` result falsifies the predicate. -/
theorem dropWhile_head_false : ∀ (l : List Char) c cs,
    l.dropWhile pyIsSpace = c :: cs → pyIsSpace c = false := by
  intro l
  induction l with
  | nil => intro c cs h; cases h
  | cons a t ih =>
    intro c cs h
    rw [List.dropWhile_cons] at h
    by_cases ha : pyIsSpace a
    · rw [if_pos ha] at h
      exact ih c cs h
    · rw [if_neg ha] at h
      obtain ⟨rfl, -⟩ := List.cons_eq_cons.mp h
      exact Bool.eq_false_iff.mpr ha

/-- An element falsifying the predicate survives `dropWhile`. -/
theorem mem_dropWhile_of_false : ∀ (l : List Char) c, c ∈ l → pyIsSpace c = false →
    c ∈ l.dropWhile pyIsSpace := by
  intro l
  induction l with
  | nil => intro c h; cases h
  | cons a t ih =>
    intro c hc hcw
    rw [List.dropWhile_cons]
    by_cases ha : pyIsSpace a
    · rcases List.mem_cons.mp hc with rfl | hc'
      · rw [hcw] at ha; cases ha
      · rw [if_pos ha]
        exact ih c hc' hcw
    · rw [if_neg ha]
      exact hc

/-- The function `dropWhile` keeps something when some element falsifies the predicate. -/
theorem dropWhile_ne_nil_of_mem (l : List Char) (c : Char) (hc : c ∈ l)
    (hcw : pyIsSpace c = false) : l.dropWhile pyIsSpace ≠ [] := by
  intro h
  have hmem := mem_dropWhile_of_false l c hc hcw
  rw [h] at hmem
  exact List.not_mem_nil c hmem

/-- Property `headOk` is preserved by appending on the right. -/
theorem headOk_append (p r : List Char) (hp : headOk p = true) :
    headOk (p ++ r) = true := by
  cases p with
  | nil => cases hp
  | cons c cs => simpa [headOk] using hp

/-- Strip is the identity on strings that begin and end with non-whitespace. -/
theorem stripChars_of_clean (l : List Char) (h1 : headOk l = true)
    (h2 : headOk l.reverse = true) : stripChars l = l := by
  unfold stripChars
  have hfront : l.dropWhile pyIsSpace = l := by
    cases l with
    | nil => rfl
    | cons c cs =>
      rw [List.dropWhile_cons, if_neg]
      intro hc
      simp [headOk, hc] at h1
  rw [hfront]
  have hback : l.reverse.dropWhile pyIsSpace = l.reverse := by
    cases hrev : l.reverse with
    | nil => simp
    | cons c cs =>
      rw [List.dropWhile_cons, if_neg]
      intro hc
      rw [hrev] at h2
      simp [headOk, hc] at h2
  rw [hback, List.reverse_reverse]

/-- Stripping `p ++ r` with a clean head `p` and a non-whitespace witness in
`r` keeps `p` intact and trail-strips `r`. -/
theorem stripChars_append (p r : List Char) (hp : headOk p = true)
    (c : Char) (hc : c ∈ r) (hcw : pyIsSpace c = false) :
    stripChars (p ++ r) = p ++ trailStrip r := by
  unfold stripChars trailStrip
  have hfront : (p ++ r).dropWhile pyIsSpace = p ++ r := by
    cases p with
    | nil => cases hp
    | cons a as =>
      rw [List.cons_append, List.dropWhile_cons, if_neg]
      intro ha
      simp [headOk, ha] at hp
  rw [hfront]
  have hrevmem : c ∈ r.reverse := List.mem_reverse.mpr hc
  have hne : r.reverse.dropWhile pyIsSpace ≠ [] :=
    dropWhile_ne_nil_of_mem r.reverse c hrevmem hcw
  rw [List.reverse_append, List.dropWhile_append, if_neg (by simpa using hne)]
  rw [List.reverse_append, List.reverse_reverse]

/-- A string containing a non-whitespace character strips to a non-empty
result that begins and ends with non-whitespace. -/
theorem stripChars_clean (l : List Char) (c : Char) (hc : c ∈ l)
    (hcw : pyIsSpace c = false) :
    stripChars l ≠ [] ∧ headOk (stripChars l) = true ∧
      headOk (stripChars l).reverse = true := by
  have hcf : c ∈ l.dropWhile pyIsSpace := mem_dropWhile_of_false l c hc hcw
  have hcfr : c ∈ (l.dropWhile pyIsSpace).reverse := List.mem_reverse.mpr hcf
  have hbne : (l.dropWhile pyIsSpace).reverse.dropWhile pyIsSpace ≠ [] :=
    dropWhile_ne_nil_of_mem _ c hcfr hcw
  refine ⟨by simpa [stripChars] using hbne, ?_, ?_⟩
  · cases hbr : ((l.dropWhile pyIsSpace).reverse.dropWhile pyIsSpace).reverse with
    | nil =>
      have := congrArg List.reverse hbr
      rw [List.reverse_reverse] at this
      exact absurd (by simpa using this) hbne
    | cons d ds =>
      have hdecomp : (l.dropWhile pyIsSpace).reverse.takeWhile pyIsSpace ++
          (l.dropWhile pyIsSpace).reverse.dropWhile pyIsSpace =
          (l.dropWhile pyIsSpace).reverse :=
        List.takeWhile_append_dropWhile ..
      have hfr := congrArg List.reverse hdecomp
      rw [List.reverse_append, List.reverse_reverse, hbr, List.cons_append] at hfr
      have hd := dropWhile_head_false l d _ hfr.symm
      simp [stripChars, hbr, headOk, hd]
  · rw [show (stripChars l).reverse
        = (l.dropWhile pyIsSpace).reverse.dropWhile pyIsSpace by
      simp [stripChars]]
    cases hb : (l.dropWhile pyIsSpace).reverse.dropWhile pyIsSpace with
    | nil => exact absurd hb hbne
    | cons d ds =>
      have hd := dropWhile_head_false (l.dropWhile pyIsSpace).reverse d ds hb
      simp [hb, headOk, hd]

/-- Joining a list with a last element appended. -/
theorem joinSep_append_singleton (sep : String) : ∀ (xs : List String) (y : String),
    xs ≠ [] → joinSep sep (xs ++ [y]) = joinSep sep xs ++ sep ++ y := by
  intro xs
  induction xs with
  | nil => intro y h; exact absurd rfl h
  | cons x xs' ih =>
    intro y _
    cases xs' with
    | nil => rfl
    | cons z zs =>
      show x ++ sep ++ joinSep sep ((z :: zs) ++ [y]) = joinSep sep (x :: z :: zs) ++ sep ++ y
      rw [ih y (by simp)]
      show x ++ sep ++ (joinSep sep (z :: zs) ++ sep ++ y)
        = (x ++ sep ++ joinSep sep (z :: zs)) ++ sep ++ y
      simp [String.append_assoc]

/-- Characters of any member string appear in the joined string. -/
theorem mem_joinSep_data (sep : String) : ∀ (xs : List String) (s : String),
    s ∈ xs → ∀ c ∈ s.data, c ∈ (joinSep sep xs).data := by
  intro xs
  induction xs with
  | nil => intro s h; cases h
  | cons x xs' ih =>
    intro s hs c hc
    cases xs' with
    | nil =>
      have hsx : s = x := by simpa using hs
      subst hsx
      exact hc
    | cons z zs =>
      rcases List.mem_cons.mp hs with rfl | hs'
      · show c ∈ (s ++ sep ++ joinSep sep (z :: zs)).data
        rw [String.data_append, String.data_append]
        exact List.mem_append_left _ (List.mem_append_left _ hc)
      · show c ∈ (x ++ sep ++ joinSep sep (z :: zs)).data
        rw [String.data_append]
        exact List.mem_append_right _ (ih s hs' c hc)

/-- A clean head survives appending on the right. -/
theorem headOkS_append (a b : String) (h : headOkS a = true) : headOkS (a ++ b) = true := by
  unfold headOkS at h ⊢
  rw [String.data_append]
  exact headOk_append _ _ h

/-- A clean end survives prepending on the left. -/
theorem endOkS_append (a b : String) (h : endOkS b = true) : endOkS (a ++ b) = true := by
  unfold endOkS at h ⊢
  rw [String.data_append, List.reverse_append]
  exact headOk_append _ _ h

/-- A join of strings with clean ends has a clean end. -/
theorem joinSep_endOk (sep : String) : ∀ (xs : List String), xs ≠ [] →
    (∀ s ∈ xs, endOkS s = true) → endOkS (joinSep sep xs) = true := by
  intro xs
  induction xs with
  | nil => intro h; exact absurd rfl h
  | cons x xs' ih =>
    intro _ hall
    cases xs' with
    | nil => exact hall x (by simp)
    | cons z zs =>
      show endOkS (x ++ sep ++ joinSep sep (z :: zs)) = true
      exact endOkS_append _ _ (ih (by simp) (fun s hs => hall s (List.mem_cons_of_mem _ hs)))

/-- Stripping is the identity on clean strings. -/
theorem pyStrip_of_clean (s : String) (h1 : headOkS s = true) (h2 : endOkS s = true) :
    pyStrip s = s := by
  apply String.ext
  show stripChars s.data = s.data
  exact stripChars_of_clean s.data h1 h2

/-- Every rendered section is non-empty and clean at both ends (it always
contains the non-whitespace `Repository:` header text). -/
theorem renderSection_clean (fs : FS) (e : Entry) :
    renderSection fs e ≠ "" ∧ headOkS (renderSection fs e) = true ∧
      endOkS (renderSection fs e) = true := by
  have hmemList : ("Repository: " ++ pyOr e.repo "unknown")
      ∈ (renderHeader fs e ++ [""] ++ renderBody fs e) := by
    simp [renderHeader]
  have hR : 'R' ∈ ("Repository: " ++ pyOr e.repo "unknown").data := by
    rw [String.data_append]
    exact List.mem_append_left _ (by decide)
  have hRin : 'R' ∈ (joinSep "\n" (renderHeader fs e ++ [""] ++ renderBody fs e)).data :=
    mem_joinSep_data _ _ _ hmemList 'R' hR
  have h3 := stripChars_clean _ 'R' hRin (by decide)
  exact ⟨fun h0 => h3.1 (congrArg String.data h0), h3.2.1, h3.2.2⟩

/-- The rendered document, when there is at least one section, is exactly the
fixed preamble, the rule-joined sections, and one final newline. -/
theorem renderDoc_eq (sections : List String) (hne : sections ≠ [])
    (hclean : ∀ s ∈ sections, s ≠ "" ∧ endOkS s = true) :
    renderDoc sections = docHeadStr ++ joinSep ruleSep sections ++ "\n" := by
  unfold renderDoc
  rw [joinSep_append_singleton "\n" docHeadLines _ (by simp [docHeadLines])]
  rw [show joinSep "\n" docHeadLines ++ "\n" = docHeadStr from rfl]
  have hJend : endOkS (joinSep ruleSep sections) = true := by
    apply joinSep_endOk ruleSep sections hne
    intro s hs
    exact (hclean s hs).2
  have h1 : headOkS (docHeadStr ++ joinSep ruleSep sections) = true :=
    headOkS_append _ _ (by decide)
  have h2 : endOkS (docHeadStr ++ joinSep ruleSep sections) = true :=
    endOkS_append _ _ hJend
  rw [pyStrip_of_clean _ h1 h2]

/-- A section whose displayed name starts with non-whitespace begins with the
exact `"<name> (<version>)"` line. -/
theorem renderSection_startsWith (fs : FS) (e : Entry)
    (h : headOkS (pyOr e.name "unknown") = true) :
    strStartsWith (renderSection fs e) (headerLine e ++ "\n") = true := by
  have hp : headOk (headerLine e ++ "\n").data = true := by
    have h1 : headOkS (pyOr e.name "unknown" ++ " (") = true := headOkS_append _ _ h
    have h2 : headOkS ((pyOr e.name "unknown" ++ " (") ++ pyOr e.version "unknown") = true :=
      headOkS_append _ _ h1
    have h3 : headOkS (((pyOr e.name "unknown" ++ " (") ++ pyOr e.version "unknown") ++ ")")
        = true := headOkS_append _ _ h2
    exact headOkS_append _ _ h3
  have hR : 'R' ∈ (joinSep "\n"
      (("Repository: " ++ pyOr e.repo "unknown") :: licenseLine fs e :: "" ::
        renderBody fs e)).data := by
    apply mem_joinSep_data _ _ ("Repository: " ++ pyOr e.repo "unknown") (by simp) 'R'
    rw [String.data_append]
    exact List.mem_append_left _ (by decide)
  show (headerLine e ++ "\n").data.isPrefixOf (renderSection fs e).data = true
  have hsec : (renderSection fs e).data
      = (headerLine e ++ "\n").data ++ trailStrip (joinSep "\n"
          (("Repository: " ++ pyOr e.repo "unknown") :: licenseLine fs e :: "" ::
            renderBody fs e)).data := by
    show stripChars ((headerLine e ++ "\n") ++ joinSep "\n"
        (("Repository: " ++ pyOr e.repo "unknown") :: licenseLine fs e :: "" ::
          renderBody fs e)).data = _
    rw [String.data_append]
    exact stripChars_append _ _ hp 'R' hR (by decide)
  rw [hsec]
  exact isPrefixOf_append_self _ _

/-- A string extended by one newline ends with that newline. -/
theorem endsWith_newline (x : String) : strEndsWith (x ++ "\n") "\n" = true := by
  show List.isPrefixOf ("\n".data.reverse) ((x ++ "\n").data.reverse) = true
  rw [String.data_append, List.reverse_append]
  exact isPrefixOf_append_self _ _

/-- A clean string extended by one newline does not end with two newlines. -/
theorem endsWith_double_newline_false (x : String) (hx : endOkS x = true) :
    strEndsWith (x ++ "\n") "\n\n" = false := by
  show List.isPrefixOf ("\n\n".data.reverse) ((x ++ "\n").data.reverse) = false
  rw [String.data_append, List.reverse_append]
  cases hrev : x.data.reverse with
  | nil =>
    unfold endOkS at hx
    rw [hrev] at hx
    cases hx
  | cons d ds =>
    have hd : pyIsSpace d = false := by
      unfold endOkS at hx
      rw [hrev] at hx
      simpa [headOk] using hx
    have hdn : (('\n' : Char) == d) = false := by
      apply beq_eq_false_iff_ne.mpr
      intro hcontra
      rw [← hcontra] at hd
      simp [pyIsSpace] at hd
    show List.isPrefixOf ['\n', '\n'] ('\n' :: d :: ds) = false
    simp [List.isPrefixOf_cons₂, List.isPrefixOf, hdn]

/-- Counterexample to claim C7. Each section is `.strip()`ed, so for a pin whose
identity begins with whitespace (here `" A"`) the written document's sole
section does **not** begin with the line `"<name> (<version>)"` (which would
be `" A (1.0)"`): the leading space is stripped away. -/
theorem C7_counterexample :
    uniqueSorted cfgC7x = [entryC7x]
    ∧ pyOr entryC7x.name "unknown" = " A"
    ∧ pyOr entryC7x.version "unknown" = "1.0"
    ∧ main_run cfgC7x = RunResult.wrote (renderedContent cfgC7x)
    ∧ renderedContent cfgC7x = docHeadStr ++ renderSection cfgC7x.fs entryC7x ++ "\n"
    ∧ strStartsWith (renderSection cfgC7x.fs entryC7x) " A (1.0)" = false := by
  refine ⟨by decide, rfl, rfl, by decide, by decide, by decide⟩

/-- Amended claim C7. When every entry has a resolvable license file, the
written document is exactly the fixed title, preamble and distribution
reminder followed by one section per deduplicated entry in sorted order,
joined by the fixed horizontal rule and terminated by exactly one trailing
newline (with zero entries it is exactly the fixed preamble ending at the
rule plus that newline); each section begins with the line
`"<name> (<version>)"` provided the displayed name starts with a
non-whitespace character (the per-section `.strip()` otherwise removes the
leading whitespace). -/
theorem C7_amended_structure (cfg : Config) (hok : ∃ pins, load_pins cfg = Except.ok pins)
    (hmiss : missingNames cfg = []) :
    main_run cfg = RunResult.wrote (renderedContent cfg)
    ∧ (uniqueSorted cfg ≠ [] → renderedContent cfg
        = docHeadStr ++ joinSep ruleSep ((uniqueSorted cfg).map (renderSection cfg.fs)) ++ "\n")
    ∧ (uniqueSorted cfg = [] → renderedContent cfg = zeroEntryDoc)
    ∧ (∀ e ∈ uniqueSorted cfg, headOkS (pyOr e.name "unknown") = true →
        strStartsWith (renderSection cfg.fs e) (headerLine e ++ "\n") = true)
    ∧ strEndsWith (renderedContent cfg) "\n" = true
    ∧ strEndsWith (renderedContent cfg) "\n\n" = false := by
  obtain ⟨pins, hld⟩ := hok
  have hwrote : main_run cfg = RunResult.wrote (renderedContent cfg) := by
    rw [main_run_ok cfg pins hld, if_pos hmiss]
  have hstart : ∀ e ∈ uniqueSorted cfg, headOkS (pyOr e.name "unknown") = true →
      strStartsWith (renderSection cfg.fs e) (headerLine e ++ "\n") = true :=
    fun e _ hws1 => renderSection_startsWith cfg.fs e hws1
  by_cases hne : uniqueSorted cfg = []
  · have hzero : renderedContent cfg = zeroEntryDoc := by
      unfold renderedContent
      rw [hne]
      rfl
    refine ⟨hwrote, fun hcon => absurd hne hcon, fun _ => hzero, hstart, ?_, ?_⟩
    · rw [hzero]
      decide
    · rw [hzero]
      decide
  · have hsecne : (uniqueSorted cfg).map (renderSection cfg.fs) ≠ [] := by
      simpa using hne
    have hclean : ∀ s ∈ (uniqueSorted cfg).map (renderSection cfg.fs),
        s ≠ "" ∧ endOkS s = true := by
      rintro s hs
      obtain ⟨e, -, rfl⟩ := List.mem_map.mp hs
      obtain ⟨hA, -, hC⟩ := renderSection_clean cfg.fs e
      exact ⟨hA, hC⟩
    have hcontent : renderedContent cfg
        = docHeadStr ++ joinSep ruleSep ((uniqueSorted cfg).map (renderSection cfg.fs)) ++ "\n" :=
      renderDoc_eq _ hsecne hclean
    have hJend : endOkS (joinSep ruleSep ((uniqueSorted cfg).map (renderSection cfg.fs)))
        = true := by
      apply joinSep_endOk ruleSep _ hsecne
      intro s hs
      exact (hclean s hs).2
    refine ⟨hwrote, fun _ => hcontent, fun h0 => absurd h0 hne, hstart, ?_, ?_⟩
    · rw [hcontent]
      exact endsWith_newline _
    · rw [hcontent]
      exact endsWith_double_newline_false _ (endOkS_append _ _ hJend)

/-- Witness for the amended C7 at a one-pin configuration whose entry `Alpha`
has a license file. -/
theorem C7_witness :
    main_run cfgC7w = RunResult.wrote (renderedContent cfgC7w)
    ∧ renderedContent cfgC7w = docHeadStr ++ joinSep ruleSep
        ((uniqueSorted cfgC7w).map (renderSection cfgC7w.fs)) ++ "\n"
    ∧ strStartsWith (renderSection cfgC7w.fs entryC7w) (headerLine entryC7w ++ "\n") = true :=
  ⟨(C7_amended_structure cfgC7w ⟨[pinC7w], rfl⟩ (by decide)).1,
   (C7_amended_structure cfgC7w ⟨[pinC7w], rfl⟩ (by decide)).2.1 (by decide),
   (C7_amended_structure cfgC7w ⟨[pinC7w], rfl⟩ (by decide)).2.2.2.1 entryC7w
     (by decide) (by decide)⟩
